import Mathlib

/-!
Verification of the interview-session core of `src/interview.py`.

The Python source is shallowly embedded below: the question bank, the keyword
scoring helper `evaluate_answer`, the question-list preparation
(`_prepare_questions`, where the randomness of `random.sample` is supplied
explicitly as a shuffled copy of the population), and the navigation machine of
`SmartInterviewApp` (`_show_slide`, `evaluate_current`, `next_slide`,
`prev_slide`, `_show_summary`).  Presentation-only elements (tkinter widgets,
colors, dialogs) carry no session state beyond what is modelled and are
omitted.
-/

/-- A question-bank entry: `{"q": ..., "keywords": [...]}`. -/
structure Question where
  q : String
  keywords : List String
deriving DecidableEq

/-- The `TECHNICAL_QUESTIONS` catalog. -/
def TECHNICAL_QUESTIONS : List Question :=
  [ { q := "What is the difference between list and tuple in Python?",
      keywords := ["mutable", "immutable"] },
    { q := "Explain the concept of inheritance in OOP.",
      keywords := ["inheritance", "base class", "derived", "subclass"] },
    { q := "What is the time complexity of binary search?",
      keywords := ["log", "logarithmic", "O(log n)"] } ]

/-- The `HR_QUESTIONS` catalog. -/
def HR_QUESTIONS : List Question :=
  [ { q := "Tell me about yourself.",
      keywords := ["student", "experience", "project", "goal"] },
    { q := "What are your strengths and weaknesses?",
      keywords := ["strength", "weakness", "learning"] },
    { q := "Where do you see yourself in 5 years?",
      keywords := ["future", "goal", "career"] } ]

def NUM_TECH : Nat := 3

def NUM_HR : Nat := 2

/-- Model of Python `str.lower()`: lowercase every character.  Written
charwise (rather than through `String.map`, whose well-founded recursion does
not evaluate by kernel reduction) so concrete instances compute. -/
def pyLower (s : String) : String :=
  ⟨s.data.map Char.toLower⟩

/-- Does `pat` match at the head of the second list? -/
def matchAt : List Char → List Char → Bool
  | [], _ => true
  | _ :: _, [] => false
  | a :: pat, b :: rest => a == b && matchAt pat rest

/-- Does `pat` occur contiguously anywhere in the list?  Checks a head match
at every suffix position. -/
def containsSub (pat : List Char) : List Char → Bool
  | [] => pat.isEmpty
  | c :: rest => matchAt pat (c :: rest) || containsSub pat rest

/-- Model of Python substring containment `needle in hay` on strings. -/
def pySubstr (needle hay : String) : Bool :=
  containsSub needle.data hay.data

theorem matchAt_iff (pat l : List Char) : matchAt pat l = true ↔ pat <+: l := by
  induction pat generalizing l with
  | nil => simp [matchAt]
  | cons a pat ih =>
    cases l with
    | nil => simp [matchAt]
    | cons b rest =>
      show (a == b && matchAt pat rest) = true ↔ a :: pat <+: b :: rest
      rw [Bool.and_eq_true, beq_iff_eq, ih, List.cons_prefix_cons]

theorem containsSub_iff (pat l : List Char) :
    containsSub pat l = true ↔ pat <:+: l := by
  induction l with
  | nil => simp [containsSub, List.isEmpty_iff]
  | cons c rest ih =>
    simp [containsSub, matchAt_iff, ih, List.infix_cons_iff]

/-- Sanity link: `pySubstr` decides contiguous-substring containment on the
underlying character lists. -/
theorem pySubstr_iff (needle hay : String) :
    pySubstr needle hay = true ↔ needle.data <:+: hay.data :=
  containsSub_iff needle.data hay.data

/-- The loop body of `evaluate_answer`: walk `keywords`, incrementing `matched`
and appending to `matched_words` whenever `kw.lower() in ans`. -/
def matchLoop (ans : String) : List String → Nat → List String → Nat × List String
  | [], matched, matched_words => (matched, matched_words)
  | kw :: rest, matched, matched_words =>
    if pySubstr (pyLower kw) ans then
      matchLoop ans rest (matched + 1) (matched_words ++ [kw])
    else
      matchLoop ans rest matched matched_words

/-- Embedding of `evaluate_answer(answer, keywords)`: lowercase the answer, count keyword
hits, and pick the feedback string by the `matched == 0` / `matched <
len(keywords)` / else cascade.  Returns `(matched, fb, matched_words)`. -/
def evaluate_answer (answer : String) (keywords : List String) :
    Nat × String × List String :=
  let ans := pyLower answer
  let r := matchLoop ans keywords 0 []
  let matched := r.1
  let fb :=
    if matched = 0 then
      "Needs improvement — missing important points."
    else if matched < keywords.length then
      "Good — some important points present, add more details."
    else
      "Excellent — covered expected points!"
  (matched, fb, r.2)

/-- Model of `random.sample(population, k)`: `k` distinct draws without replacement,
or a `ValueError` (here `none`) when `k` exceeds the population size.  The
randomness is supplied as `shuffled`, an arbitrary reordering of the
population; anything that is not a permutation of `population` is ignored. -/
def randomSample (population shuffled : List Question) (k : Nat) :
    Option (List Question) :=
  if k ≤ population.length then
    some ((if List.Perm shuffled population then shuffled else population).take k)
  else none

/-- The sampling step `_prepare_questions` performs for one category: the code
calls `random.sample(qs, min(count, len(qs)))`, clamping the requested `count`
to the catalog size. -/
def sampleClamped (population shuffled : List Question) (count : Nat) :
    Option (List Question) :=
  randomSample population shuffled (min count population.length)

/-- The interleaving loop of `_prepare_questions`: for
`i in range(max(len(tech_sample), len(hr_sample)))`, append
`("Technical", tech_sample[i])` when in range, then `("HR", hr_sample[i])`
when in range. -/
def prepare_combine (tech_sample hr_sample : List Question) :
    List (String × Question) :=
  (List.range (max tech_sample.length hr_sample.length)).flatMap fun i =>
    ((tech_sample[i]?).map fun qd => ("Technical", qd)).toList
      ++ ((hr_sample[i]?).map fun qd => ("HR", qd)).toList

/-- Embedding of `_prepare_questions`, with the two shuffles passed explicitly. -/
def prepare_questions (techShuffled hrShuffled : List Question) :
    Option (List (String × Question)) :=
  match sampleClamped TECHNICAL_QUESTIONS techShuffled NUM_TECH,
      sampleClamped HR_QUESTIONS hrShuffled NUM_HR with
  | some tech_sample, some hr_sample =>
    some (prepare_combine tech_sample hr_sample)
  | _, _ => none

/-- The session-relevant state of `SmartInterviewApp`: the prepared question
list, the current slide index (`len(questions)` is the summary slide), and the
`answers` / `scores` arrays. -/
structure AppState where
  questions : List (String × Question)
  current_idx : Nat
  answers : List String
  scores : List Nat
deriving DecidableEq

/-- Embedding of `_show_slide(idx)`: raises the slide and stores `self.current_idx = idx`
(the rest of the method is widget and progress-bar rendering). -/
def show_slide (s : AppState) (idx : Nat) : AppState :=
  { s with current_idx := idx }

/-- The state after `__init__`: prepared questions, `current_idx = 0`,
`answers = [""] * len(questions)`, `scores = [0] * len(questions)`,
then `_show_slide(0)`. -/
def init_state (qs : List (String × Question)) : AppState :=
  show_slide
    { questions := qs
      current_idx := 0
      answers := List.replicate qs.length ""
      scores := List.replicate qs.length 0 } 0

/-- Embedding of `evaluate_current`, with the staged answer text (the result
of the current slide method `get_answer()`) passed explicitly: a bare `return` when
`current_idx >= len(self.slides)`, otherwise store the text in
`answers[current_idx]` and its score in `scores[current_idx]`. -/
def evaluate_current (s : AppState) (ans : String) : AppState :=
  if s.questions.length ≤ s.current_idx then s
  else
    match s.questions[s.current_idx]? with
    | none => s
    | some cq =>
      { s with
        answers := s.answers.set s.current_idx ans
        scores := s.scores.set s.current_idx (evaluate_answer ans cq.2.keywords).1 }

/-- Embedding of `evaluate_current`, with the call outcome made explicit as an `Except`:
the invalid-position guard in the source is a bare `return`, so every call returns
normally; an `InvalidState`-style report would be an `Except.error`, and the
source has no such path. -/
def evaluate_current_call (s : AppState) (ans : String) :
    Except String AppState :=
  Except.ok (evaluate_current s ans)

/-- Embedding of `_show_summary`: builds the summary text (derived, rendering-only) and
calls `_show_slide(len(self.slides))`. -/
def show_summary (s : AppState) : AppState :=
  show_slide s s.questions.length

/-- Embedding of `next_slide`: auto-evaluate the staged text, then advance to
`current_idx + 1`, or to the summary from the last question. -/
def next_slide (s : AppState) (staged : String) : AppState :=
  let s1 := evaluate_current s staged
  if s1.current_idx < s1.questions.length - 1 then
    show_slide s1 (s1.current_idx + 1)
  else
    show_summary s1

/-- Embedding of `prev_slide`: step back one slide whenever `current_idx > 0`. -/
def prev_slide (s : AppState) : AppState :=
  if 0 < s.current_idx then show_slide s (s.current_idx - 1) else s

/-- The percentage `_show_slide` pushes to the progress bar:
`(idx / len(self.slides)) * 100`. -/
def progress_percent (s : AppState) : ℚ :=
  ((s.current_idx : ℚ) / (s.questions.length : ℚ)) * 100

/-- The progress as a fraction of the bar, `progress_percent / 100`. -/
def progressFraction (s : AppState) : ℚ :=
  progress_percent s / 100

/-- One per-category tally update of `_show_summary`:
`section_wise.setdefault(sect, ...)` followed by `+=` on its score and
possible fields, on an association list kept in insertion order. -/
def section_wise_add (acc : List (String × Nat × Nat)) (sect : String)
    (sc poss : Nat) : List (String × Nat × Nat) :=
  match acc with
  | [] => [(sect, sc, poss)]
  | (s, a, b) :: rest =>
    if s = sect then (s, a + sc, b + poss) :: rest
    else (s, a, b) :: section_wise_add rest sect sc poss

/-- The `section_wise` accumulation loop of `_show_summary`:
`for i, (sect, qdata) in enumerate(self.questions)`, add `scores[i]` and
`len(qdata["keywords"])` to the tally of that section. -/
def section_wise (qs : List (String × Question)) (scores : List Nat) :
    List (String × Nat × Nat) :=
  (qs.zip scores).foldl
    (fun acc p => section_wise_add acc p.1.1 p.2 p.1.2.keywords.length) []

/-- The aggregated numbers `_show_summary` computes before formatting. -/
structure SummaryReport where
  totalScore : Nat
  totalPossible : Nat
  perCategory : List (String × Nat × Nat)
deriving DecidableEq

/-- The aggregation of `_show_summary`:
`total_keywords = sum(len(q[1]["keywords"]) for q in questions)`,
`total_score = sum(self.scores)`, and the `section_wise` tallies. -/
def build_report (s : AppState) : SummaryReport :=
  { totalScore := s.scores.sum
    totalPossible := (s.questions.map fun cq => cq.2.keywords.length).sum
    perCategory := section_wise s.questions s.scores }

/-- Modelled from the spec: the interleaving rule of the data model, round
robin by index across the two samples, technical first on each round,
appending whichever sample still has remaining items once the other is
exhausted. -/
def roundRobin {α : Type} : List α → List α → List α
  | [], ys => ys
  | x :: xs, [] => x :: xs
  | x :: xs, y :: ys => x :: y :: roundRobin xs ys

/-- Modelled from the spec: fold a category sequence into its keys in order of
first appearance, starting from an already-seen key list. -/
def firstSeenFrom (ks : List String) (cats : List String) : List String :=
  cats.foldl (fun acc c => if c ∈ acc then acc else acc ++ [c]) ks

/-- Modelled from the spec: category keys in first-seen order. -/
def firstSeenCats (cats : List String) : List String :=
  firstSeenFrom [] cats

/-- The session invariant: the slide index never exceeds the summary position,
and the `answers` / `scores` arrays stay aligned with the question list. -/
@[reducible] def SessionInv (s : AppState) : Prop :=
  s.current_idx ≤ s.questions.length ∧
  s.answers.length = s.questions.length ∧
  s.scores.length = s.questions.length

/-- A small technical question used to exercise operations on concrete data. -/
def demoTech : Question := { q := "t", keywords := ["aa", "bb"] }

/-- A small HR question used to exercise operations on concrete data. -/
def demoHR : Question := { q := "h", keywords := ["cc"] }

/-- A two-question session list on concrete data. -/
def demoQuestions : List (String × Question) :=
  [("Technical", demoTech), ("HR", demoHR)]

/-- The state reached by pressing Next twice from the initial state of the
demo session: the summary position, `current_idx = 2`. -/
def demoSummary : AppState :=
  next_slide (next_slide (init_state demoQuestions) "") ""

theorem matchLoop_eq (ans : String) (kws : List String) (m : Nat)
    (ws : List String) :
    matchLoop ans kws m ws =
      (m + kws.countP (fun kw => pySubstr (pyLower kw) ans),
        ws ++ kws.filter (fun kw => pySubstr (pyLower kw) ans)) := by
  induction kws generalizing m ws with
  | nil => simp [matchLoop]
  | cons kw rest ih =>
    by_cases hkw : pySubstr (pyLower kw) ans = true
    · have hstep : matchLoop ans (kw :: rest) m ws
          = matchLoop ans rest (m + 1) (ws ++ [kw]) := by
        show (if pySubstr (pyLower kw) ans = true then
            matchLoop ans rest (m + 1) (ws ++ [kw])
          else matchLoop ans rest m ws) = _
        rw [if_pos hkw]
      rw [hstep, ih, List.countP_cons, List.filter_cons]
      simp [hkw, Prod.ext_iff]
      all_goals omega
    · have hstep : matchLoop ans (kw :: rest) m ws = matchLoop ans rest m ws := by
        show (if pySubstr (pyLower kw) ans = true then
            matchLoop ans rest (m + 1) (ws ++ [kw])
          else matchLoop ans rest m ws) = _
        rw [if_neg hkw]
      rw [hstep, ih, List.countP_cons, List.filter_cons]
      simp [hkw]

theorem evaluate_answer_fb (a : String) (k : List String) :
    (evaluate_answer a k).2.1 =
      if (evaluate_answer a k).1 = 0 then
        "Needs improvement — missing important points."
      else if (evaluate_answer a k).1 < k.length then
        "Good — some important points present, add more details."
      else
        "Excellent — covered expected points!" := rfl

/-- C1: `evaluate(A, K)` returns `matchCount` equal to the number of entries of
`K` whose lowercased form is a substring of the lowercased `A` (each occurrence
in `K` counted separately), returns `matchedKeywords` as exactly the matching
entries in the order of `K`, and `matchCount` never exceeds `len(K)`. -/
theorem C1_evaluate_matchCount (a : String) (k : List String) :
    (evaluate_answer a k).1 =
        k.countP (fun kw => pySubstr (pyLower kw) (pyLower a))
    ∧ (evaluate_answer a k).2.2 =
        k.filter (fun kw => pySubstr (pyLower kw) (pyLower a))
    ∧ (evaluate_answer a k).1 ≤ k.length := by
  have h := matchLoop_eq (pyLower a) k 0 []
  have h1 : (evaluate_answer a k).1 = (matchLoop (pyLower a) k 0 []).1 := rfl
  have h2 : (evaluate_answer a k).2.2 = (matchLoop (pyLower a) k 0 []).2 := rfl
  rw [h] at h1 h2
  simp only [Nat.zero_add, List.nil_append] at h1 h2
  exact ⟨h1, h2, by rw [h1]; exact List.countP_le_length _⟩

/-- C2 counterexample: with an empty keyword list, `matchCount` equals
`len(keywords)` (both are `0`), yet the feedback is the `None`-tier string,
not the `Full`-tier string the claim requires. -/
theorem C2_counterexample :
    (evaluate_answer "x" ([] : List String)).1 = ([] : List String).length ∧
    (evaluate_answer "x" ([] : List String)).2.1 ≠
      "Excellent — covered expected points!" := by
  exact ⟨rfl, by decide⟩

/-- C2 (amended): the tier is `None` exactly when `matchCount == 0` — the
`None` branch wins even when `keywords` is empty and `matchCount ==
len(keywords) == 0` — `Full` when `matchCount == len(keywords)` with
`keywords` nonempty, and `Partial` when `0 < matchCount < len(keywords)`. -/
theorem C2_feedback_tiers (a : String) (k : List String) :
    ((evaluate_answer a k).2.1 =
        "Needs improvement — missing important points."
      ↔ (evaluate_answer a k).1 = 0)
    ∧ (k ≠ [] → (evaluate_answer a k).1 = k.length →
        (evaluate_answer a k).2.1 = "Excellent — covered expected points!")
    ∧ ((evaluate_answer a k).1 ≠ 0 → (evaluate_answer a k).1 < k.length →
        (evaluate_answer a k).2.1 =
          "Good — some important points present, add more details.") := by
  have hfb := evaluate_answer_fb a k
  refine ⟨⟨?_, ?_⟩, ?_, ?_⟩
  · intro h
    by_contra h0
    rw [hfb, if_neg h0] at h
    by_cases hlt : (evaluate_answer a k).1 < k.length
    · rw [if_pos hlt] at h
      exact absurd h (by decide)
    · rw [if_neg hlt] at h
      exact absurd h (by decide)
  · intro h0
    rw [hfb, if_pos h0]
  · intro hk hlen
    have h0 : (evaluate_answer a k).1 ≠ 0 := by
      intro hz
      exact hk (List.eq_nil_of_length_eq_zero (by omega))
    rw [hfb, if_neg h0, if_neg (by omega)]
  · intro h0 hlt
    rw [hfb, if_neg h0, if_pos hlt]

/-- C2 witness: on concrete inputs the amended tier rules fire: an answer
containing both keywords gets the `Full`-tier string. -/
theorem C2_feedback_tiers_witness :
    (evaluate_answer "lists are mutable, tuples are immutable"
        ["mutable", "immutable"]).2.1 =
      "Excellent — covered expected points!" :=
  (C2_feedback_tiers "lists are mutable, tuples are immutable"
    ["mutable", "immutable"]).2.1 (by decide) (by decide)

theorem range_succ_flatMap {β : Type} (n : Nat) (g : Nat → List β) :
    (List.range (n + 1)).flatMap g
      = g 0 ++ (List.range n).flatMap (fun i => g (i + 1)) := by
  rw [List.range_succ_eq_map, List.flatMap_cons, List.flatMap_map]

theorem range_flatMap_get {β : Type} (l : List Question) (f : Question → β) :
    (List.range l.length).flatMap (fun i => ((l[i]?).map f).toList)
      = l.map f := by
  induction l with
  | nil => rfl
  | cons x xs ih =>
    rw [List.length_cons, range_succ_flatMap]
    simp only [List.getElem?_cons_zero, List.getElem?_cons_succ, List.map_cons]
    rw [ih]
    rfl

theorem prepare_combine_nil_left (hs : List Question) :
    prepare_combine [] hs = hs.map (fun qd => ("HR", qd)) := by
  unfold prepare_combine
  simp only [List.length_nil, Nat.zero_max, List.getElem?_nil, Option.map_none',
    Option.toList_none, List.nil_append]
  exact range_flatMap_get hs _

theorem prepare_combine_nil_right (ts : List Question) :
    prepare_combine ts [] = ts.map (fun qd => ("Technical", qd)) := by
  unfold prepare_combine
  simp only [List.length_nil, Nat.max_zero, List.getElem?_nil, Option.map_none',
    Option.toList_none, List.append_nil]
  exact range_flatMap_get ts _

theorem prepare_combine_cons (t : Question) (ts : List Question)
    (h : Question) (hs : List Question) :
    prepare_combine (t :: ts) (h :: hs)
      = ("Technical", t) :: ("HR", h) :: prepare_combine ts hs := by
  unfold prepare_combine
  rw [List.length_cons, List.length_cons, Nat.succ_max_succ, range_succ_flatMap]
  simp only [List.getElem?_cons_zero, List.getElem?_cons_succ]
  rfl

theorem prepare_combine_eq_roundRobin (tech hr : List Question) :
    prepare_combine tech hr
      = roundRobin (tech.map fun qd => ("Technical", qd))
          (hr.map fun qd => ("HR", qd)) := by
  induction tech generalizing hr with
  | nil => rw [prepare_combine_nil_left]; rfl
  | cons t ts ih =>
    cases hr with
    | nil => rw [prepare_combine_nil_right]; rfl
    | cons h hs => rw [prepare_combine_cons, ih]; rfl

theorem evaluate_current_questions (s : AppState) (staged : String) :
    (evaluate_current s staged).questions = s.questions := by
  unfold evaluate_current
  split
  · rfl
  · split <;> rfl

theorem evaluate_current_idx (s : AppState) (staged : String) :
    (evaluate_current s staged).current_idx = s.current_idx := by
  unfold evaluate_current
  split
  · rfl
  · split <;> rfl

theorem evaluate_current_answers_len (s : AppState) (staged : String) :
    (evaluate_current s staged).answers.length = s.answers.length := by
  unfold evaluate_current
  split
  · rfl
  · split
    · rfl
    · simp [List.length_set]

theorem evaluate_current_scores_len (s : AppState) (staged : String) :
    (evaluate_current s staged).scores.length = s.scores.length := by
  unfold evaluate_current
  split
  · rfl
  · split
    · rfl
    · simp [List.length_set]

theorem next_slide_questions (s : AppState) (staged : String) :
    (next_slide s staged).questions = s.questions := by
  simp only [next_slide]
  split <;> simp [show_slide, show_summary, evaluate_current_questions]

theorem prev_slide_questions (s : AppState) :
    (prev_slide s).questions = s.questions := by
  unfold prev_slide show_slide
  split <;> rfl

/-- C3: the session question list is the round-robin interleaving by index of
the technical sample and the HR sample, technical first on each round, with
the remainder of the longer sample appended; and no session operation ever
changes the question list, so it is fixed for the lifetime of the session. -/
theorem C3_build_session_list (tech hr : List Question) (s : AppState)
    (staged : String) :
    prepare_combine tech hr
        = roundRobin (tech.map fun qd => ("Technical", qd))
            (hr.map fun qd => ("HR", qd))
    ∧ (evaluate_current s staged).questions = s.questions
    ∧ (next_slide s staged).questions = s.questions
    ∧ (prev_slide s).questions = s.questions :=
  ⟨prepare_combine_eq_roundRobin tech hr, evaluate_current_questions s staged,
    next_slide_questions s staged, prev_slide_questions s⟩

theorem evaluate_current_eq (s : AppState) (staged : String)
    (cq : String × Question)
    (h : s.current_idx < s.questions.length)
    (hq : s.questions[s.current_idx]? = some cq) :
    evaluate_current s staged =
      { s with
        answers := s.answers.set s.current_idx staged
        scores := s.scores.set s.current_idx
          (evaluate_answer staged cq.2.keywords).1 } := by
  unfold evaluate_current
  rw [if_neg (by omega), hq]

theorem next_slide_idx (s : AppState) (staged : String) :
    (next_slide s staged).current_idx
      = if s.current_idx < s.questions.length - 1 then s.current_idx + 1
        else s.questions.length := by
  simp only [next_slide, show_slide, show_summary, evaluate_current_idx,
    evaluate_current_questions]
  split <;> rfl

theorem next_slide_answers_len (s : AppState) (staged : String) :
    (next_slide s staged).answers.length = s.answers.length := by
  simp only [next_slide, show_slide, show_summary]
  split <;> simp [evaluate_current_answers_len]

theorem next_slide_scores_len (s : AppState) (staged : String) :
    (next_slide s staged).scores.length = s.scores.length := by
  simp only [next_slide, show_slide, show_summary]
  split <;> simp [evaluate_current_scores_len]

theorem prev_slide_answers (s : AppState) :
    (prev_slide s).answers = s.answers := by
  unfold prev_slide show_slide
  split <;> rfl

theorem prev_slide_scores (s : AppState) :
    (prev_slide s).scores = s.scores := by
  unfold prev_slide show_slide
  split <;> rfl

/-- C5 counterexample: in the demo session the Summary position is reached
(`current_idx = 2 = N`), yet `prev_slide` leaves it: the state changes and
lands back on the last question.  Summary is not terminal in the code. -/
theorem C5_counterexample :
    demoSummary.current_idx = demoSummary.questions.length
    ∧ prev_slide demoSummary ≠ demoSummary
    ∧ (prev_slide demoSummary).current_idx
        = demoSummary.questions.length - 1 := by
  decide

/-- C5 (amended): the Summary position is not terminal: whenever
`current_idx = N` with `N > 0`, `prev_slide` transitions back to the last
question `Active(N-1)`, keeping the question list intact.  (The Previous
button stays enabled on the summary slide: `_show_slide` enables it for any
positive index.) -/
theorem C5_prev_leaves_summary (s : AppState)
    (hsum : s.current_idx = s.questions.length)
    (hN : 0 < s.questions.length) :
    (prev_slide s).current_idx = s.questions.length - 1
    ∧ (prev_slide s).questions = s.questions := by
  unfold prev_slide show_slide
  rw [if_pos (by omega)]
  exact ⟨by simp [hsum], rfl⟩

/-- C5 witness: the amended transition fires on the concrete demo session. -/
theorem C5_prev_leaves_summary_witness :
    (prev_slide demoSummary).current_idx
        = demoSummary.questions.length - 1
    ∧ (prev_slide demoSummary).questions = demoSummary.questions :=
  C5_prev_leaves_summary demoSummary (by decide) (by decide)

/-- C6 counterexample: requesting 5 technical questions from the 3-question
catalog does not fail with `InsufficientQuestions`: the code clamps the
sample size with `min` and returns the 3 available questions. -/
theorem C6_counterexample :
    TECHNICAL_QUESTIONS.length < 5
    ∧ sampleClamped TECHNICAL_QUESTIONS TECHNICAL_QUESTIONS 5
        = some TECHNICAL_QUESTIONS := by
  constructor
  · decide
  · show randomSample TECHNICAL_QUESTIONS TECHNICAL_QUESTIONS
        (min 5 TECHNICAL_QUESTIONS.length) = _
    unfold randomSample
    rw [if_pos (Nat.min_le_right _ _), if_pos (List.Perm.refl _)]
    rfl

/-- C6 (amended): sampling never fails; for any requested `count` and any
shuffle of the catalog it silently clamps, returning
`min count (catalog size)` questions drawn without replacement from the
catalog (the result is a sub-permutation of the catalog). -/
theorem C6_sample_clamps (population shuffled : List Question) (count : Nat)
    (hp : List.Perm shuffled population) :
    sampleClamped population shuffled count
      = some (shuffled.take (min count population.length))
    ∧ (shuffled.take (min count population.length)).length
        = min count population.length
    ∧ List.Subperm (shuffled.take (min count population.length))
        population := by
  refine ⟨?_, ?_, ?_⟩
  · unfold sampleClamped randomSample
    rw [if_pos (Nat.min_le_right _ _), if_pos hp]
  · rw [List.length_take]
    have hlen := hp.length_eq
    omega
  · exact ((List.take_sublist _ _).subperm).trans hp.subperm

/-- C6 witness: a concrete in-range sample of 2 from the technical catalog. -/
theorem C6_sample_clamps_witness :
    sampleClamped TECHNICAL_QUESTIONS TECHNICAL_QUESTIONS 2
      = some (TECHNICAL_QUESTIONS.take (min 2 TECHNICAL_QUESTIONS.length))
    ∧ (TECHNICAL_QUESTIONS.take (min 2 TECHNICAL_QUESTIONS.length)).length
        = min 2 TECHNICAL_QUESTIONS.length
    ∧ List.Subperm
        (TECHNICAL_QUESTIONS.take (min 2 TECHNICAL_QUESTIONS.length))
        TECHNICAL_QUESTIONS :=
  C6_sample_clamps TECHNICAL_QUESTIONS TECHNICAL_QUESTIONS 2
    (List.Perm.refl _)

/-- C7: in an Active state, submitting `t1` and then `t2` is the same as
submitting `t2` alone; the record at the current index then holds `t2` and
the score of `t2` against the current keywords, every other index keeps its
answer and score, and the current index is unchanged. -/
theorem C7_submit_overwrite (s : AppState) (t1 t2 : String)
    (cq : String × Question)
    (h : s.current_idx < s.questions.length)
    (hq : s.questions[s.current_idx]? = some cq)
    (ha : s.answers.length = s.questions.length)
    (hs : s.scores.length = s.questions.length) :
    evaluate_current (evaluate_current s t1) t2 = evaluate_current s t2
    ∧ (evaluate_current s t2).answers[s.current_idx]? = some t2
    ∧ (evaluate_current s t2).scores[s.current_idx]?
        = some (evaluate_answer t2 cq.2.keywords).1
    ∧ (∀ j, j ≠ s.current_idx →
        (evaluate_current s t2).answers[j]? = s.answers[j]?
        ∧ (evaluate_current s t2).scores[j]? = s.scores[j]?)
    ∧ (evaluate_current s t2).current_idx = s.current_idx := by
  have e1 := evaluate_current_eq s t1 cq h hq
  have e2 := evaluate_current_eq s t2 cq h hq
  refine ⟨?_, ?_, ?_, ?_, ?_⟩
  · have e3 := evaluate_current_eq
      { s with
        answers := s.answers.set s.current_idx t1
        scores := s.scores.set s.current_idx
          (evaluate_answer t1 cq.2.keywords).1 } t2 cq h hq
    rw [e1, e3, e2]
    simp [List.set_set]
  · rw [e2]
    exact List.getElem?_set_eq_of_lt t2 (by omega)
  · rw [e2]
    exact List.getElem?_set_eq_of_lt _ (by omega)
  · intro j hj
    rw [e2]
    exact ⟨List.getElem?_set_ne (Ne.symm hj),
      List.getElem?_set_ne (Ne.symm hj)⟩
  · rw [e2]

/-- C7 witness: the overwrite law on the concrete demo session at index 0. -/
theorem C7_submit_overwrite_witness :
    evaluate_current (evaluate_current (init_state demoQuestions) "xx") "aa"
        = evaluate_current (init_state demoQuestions) "aa"
    ∧ (evaluate_current (init_state demoQuestions) "aa").answers[
        (init_state demoQuestions).current_idx]? = some "aa"
    ∧ (evaluate_current (init_state demoQuestions) "aa").current_idx
        = (init_state demoQuestions).current_idx :=
  ⟨(C7_submit_overwrite (init_state demoQuestions) "xx" "aa"
      ("Technical", demoTech) (by decide) (by decide) (by decide)
      (by decide)).1,
    (C7_submit_overwrite (init_state demoQuestions) "xx" "aa"
      ("Technical", demoTech) (by decide) (by decide) (by decide)
      (by decide)).2.1,
    (C7_submit_overwrite (init_state demoQuestions) "xx" "aa"
      ("Technical", demoTech) (by decide) (by decide) (by decide)
      (by decide)).2.2.2.2⟩

/-- C8: every operation preserves the session invariant — the index stays in
`[0, N]` and the `answers` / `scores` arrays keep length `N` — and the
navigation bounds hold: from the first question `prev_slide` is a no-op
(never underflows), and from the last question `next_slide` lands exactly on
the Summary position `N`, never beyond. -/
theorem C8_invariant_preserved (s : AppState) (staged : String)
    (h : SessionInv s) :
    SessionInv (evaluate_current s staged)
    ∧ SessionInv (next_slide s staged)
    ∧ SessionInv (prev_slide s)
    ∧ (s.current_idx = 0 → prev_slide s = s)
    ∧ (s.current_idx + 1 = s.questions.length →
        (next_slide s staged).current_idx = s.questions.length) := by
  obtain ⟨h1, h2, h3⟩ := h
  refine ⟨⟨?_, ?_, ?_⟩, ⟨?_, ?_, ?_⟩, ⟨?_, ?_, ?_⟩, ?_, ?_⟩
  · rw [evaluate_current_idx, evaluate_current_questions]
    exact h1
  · rw [evaluate_current_answers_len, evaluate_current_questions]
    exact h2
  · rw [evaluate_current_scores_len, evaluate_current_questions]
    exact h3
  · rw [next_slide_idx, next_slide_questions]
    split <;> omega
  · rw [next_slide_answers_len, next_slide_questions]
    exact h2
  · rw [next_slide_scores_len, next_slide_questions]
    exact h3
  · unfold prev_slide show_slide
    split
    · show s.current_idx - 1 ≤ s.questions.length
      omega
    · exact h1
  · rw [prev_slide_answers, prev_slide_questions]
    exact h2
  · rw [prev_slide_scores, prev_slide_questions]
    exact h3
  · intro h0
    unfold prev_slide
    rw [if_neg (by omega)]
  · intro hlast
    rw [next_slide_idx, if_neg (by omega)]

/-- C8 witness: the invariant and the no-op law on the concrete demo
session at its first question. -/
theorem C8_invariant_preserved_witness :
    SessionInv (next_slide (init_state demoQuestions) "aa")
    ∧ prev_slide (init_state demoQuestions) = init_state demoQuestions :=
  ⟨(C8_invariant_preserved (init_state demoQuestions) "aa"
      (by decide)).2.1,
    (C8_invariant_preserved (init_state demoQuestions) "aa"
      (by decide)).2.2.2.1 rfl⟩

/-- C9: the progress fraction equals `currentIndex / N`, lies in `[0, 1]`,
never decreases under `next_slide`, is `0` in the initial state, and is
exactly `1` at the Summary position. -/
theorem C9_progress (s : AppState) (staged : String)
    (qs : List (String × Question))
    (hidx : s.current_idx ≤ s.questions.length)
    (hN : 0 < s.questions.length) :
    progressFraction s = (s.current_idx : ℚ) / (s.questions.length : ℚ)
    ∧ 0 ≤ progressFraction s
    ∧ progressFraction s ≤ 1
    ∧ progressFraction s ≤ progressFraction (next_slide s staged)
    ∧ progressFraction (init_state qs) = 0
    ∧ (s.current_idx = s.questions.length → progressFraction s = 1) := by
  have hNq : (0 : ℚ) < (s.questions.length : ℚ) := by exact_mod_cast hN
  have heq : ∀ u : AppState,
      progressFraction u = (u.current_idx : ℚ) / (u.questions.length : ℚ) := by
    intro u
    unfold progressFraction progress_percent
    ring
  refine ⟨heq s, ?_, ?_, ?_, ?_, ?_⟩
  · rw [heq]
    positivity
  · rw [heq, div_le_one hNq]
    exact_mod_cast hidx
  · rw [heq, heq, next_slide_questions, next_slide_idx]
    rw [div_le_div_iff_of_pos_right hNq]
    split
    · exact_mod_cast Nat.le_succ _
    · exact_mod_cast hidx
  · rw [heq]
    simp [init_state, show_slide]
  · intro hsum
    rw [heq, hsum]
    exact div_self (ne_of_gt hNq)

/-- C9 witness: in the demo session the fraction is exactly `1` at the
Summary position. -/
theorem C9_progress_witness : progressFraction demoSummary = 1 :=
  (C9_progress demoSummary "aa" demoQuestions (by decide)
    (by decide)).2.2.2.2.2 (by decide)

/-- C10 counterexample: submitting an answer while at the Summary position is
silently ignored: the call returns normally (`Except.ok`) with the state
completely unchanged, and no `InvalidState` failure is reported to the
caller. -/
theorem C10_counterexample :
    evaluate_current_call demoSummary "hello" = Except.ok demoSummary := by
  rfl

/-- C10 (amended): an `evaluate_current` call in a state that does not
support it (index at or beyond the question count, as at Summary) is a silent
no-op: it returns normally, reports no failure, and leaves the entire session
state unchanged. -/
theorem C10_invalid_call_noop (s : AppState) (staged : String)
    (h : s.questions.length ≤ s.current_idx) :
    evaluate_current_call s staged = Except.ok s
    ∧ evaluate_current s staged = s := by
  have he : evaluate_current s staged = s := by
    unfold evaluate_current
    rw [if_pos h]
  exact ⟨by unfold evaluate_current_call; rw [he], he⟩

/-- C10 witness: the silent no-op on the concrete demo session at Summary. -/
theorem C10_invalid_call_noop_witness :
    evaluate_current_call demoSummary "zz" = Except.ok demoSummary
    ∧ evaluate_current demoSummary "zz" = demoSummary :=
  C10_invalid_call_noop demoSummary "zz" (by decide)

theorem section_wise_add_score_sum (acc : List (String × Nat × Nat))
    (sect : String) (sc poss : Nat) :
    ((section_wise_add acc sect sc poss).map fun e => e.2.1).sum
      = (acc.map fun e => e.2.1).sum + sc := by
  induction acc with
  | nil => simp [section_wise_add]
  | cons p rest ih =>
    obtain ⟨s0, a, b⟩ := p
    by_cases hs0 : s0 = sect
    · simp [section_wise_add, hs0]
      omega
    · simp [section_wise_add, hs0, ih]
      omega

theorem section_wise_add_poss_sum (acc : List (String × Nat × Nat))
    (sect : String) (sc poss : Nat) :
    ((section_wise_add acc sect sc poss).map fun e => e.2.2).sum
      = (acc.map fun e => e.2.2).sum + poss := by
  induction acc with
  | nil => simp [section_wise_add]
  | cons p rest ih =>
    obtain ⟨s0, a, b⟩ := p
    by_cases hs0 : s0 = sect
    · simp [section_wise_add, hs0]
      omega
    · simp [section_wise_add, hs0, ih]
      omega

theorem section_wise_add_keys (acc : List (String × Nat × Nat))
    (sect : String) (sc poss : Nat) :
    (section_wise_add acc sect sc poss).map Prod.fst
      = if sect ∈ acc.map Prod.fst then acc.map Prod.fst
        else acc.map Prod.fst ++ [sect] := by
  induction acc with
  | nil => simp [section_wise_add]
  | cons p rest ih =>
    obtain ⟨s0, a, b⟩ := p
    by_cases hs0 : s0 = sect
    · simp [section_wise_add, hs0]
    · by_cases hmem : sect ∈ rest.map Prod.fst
      · simp [section_wise_add, hs0, ih, hmem, List.mem_cons, Ne.symm hs0]
      · simp [section_wise_add, hs0, ih, hmem, List.mem_cons, Ne.symm hs0]

theorem section_wise_foldl_score (l : List ((String × Question) × Nat))
    (acc : List (String × Nat × Nat)) :
    ((l.foldl (fun acc p =>
          section_wise_add acc p.1.1 p.2 p.1.2.keywords.length) acc).map
        fun e => e.2.1).sum
      = (acc.map fun e => e.2.1).sum + (l.map fun p => p.2).sum := by
  induction l generalizing acc with
  | nil => simp
  | cons p rest ih =>
    rw [List.foldl_cons, ih, section_wise_add_score_sum, List.map_cons,
      List.sum_cons]
    omega

theorem section_wise_foldl_poss (l : List ((String × Question) × Nat))
    (acc : List (String × Nat × Nat)) :
    ((l.foldl (fun acc p =>
          section_wise_add acc p.1.1 p.2 p.1.2.keywords.length) acc).map
        fun e => e.2.2).sum
      = (acc.map fun e => e.2.2).sum
        + (l.map fun p => p.1.2.keywords.length).sum := by
  induction l generalizing acc with
  | nil => simp
  | cons p rest ih =>
    rw [List.foldl_cons, ih, section_wise_add_poss_sum, List.map_cons,
      List.sum_cons]
    omega

theorem section_wise_foldl_keys (l : List ((String × Question) × Nat))
    (acc : List (String × Nat × Nat)) :
    (l.foldl (fun acc p =>
        section_wise_add acc p.1.1 p.2 p.1.2.keywords.length) acc).map
          Prod.fst
      = firstSeenFrom (acc.map Prod.fst) (l.map fun p => p.1.1) := by
  induction l generalizing acc with
  | nil => simp [firstSeenFrom]
  | cons p rest ih =>
    rw [List.foldl_cons, ih, section_wise_add_keys, List.map_cons]
    rfl

/-- C4: `build_report` computes `totalPossible` as the sum of keyword-list
lengths over all questions and `totalScore` as the sum of the stored scores;
the per-category tallies are keyed in first-seen category order; and the
total score and total possible decompose exactly as the sums of the
per-category scores and possibles. -/
theorem C4_summary_totals (s : AppState)
    (h : s.scores.length = s.questions.length) :
    (build_report s).totalScore = s.scores.sum
    ∧ (build_report s).totalPossible
        = (s.questions.map fun cq => cq.2.keywords.length).sum
    ∧ (build_report s).perCategory.map Prod.fst
        = firstSeenCats (s.questions.map Prod.fst)
    ∧ (build_report s).totalScore
        = ((build_report s).perCategory.map fun e => e.2.1).sum
    ∧ (build_report s).totalPossible
        = ((build_report s).perCategory.map fun e => e.2.2).sum := by
  have hle1 : s.questions.length ≤ s.scores.length := by omega
  have hle2 : s.scores.length ≤ s.questions.length := by omega
  refine ⟨rfl, rfl, ?_, ?_, ?_⟩
  · show (section_wise s.questions s.scores).map Prod.fst = _
    unfold section_wise
    rw [section_wise_foldl_keys,
      show (fun p : (String × Question) × Nat => p.1.1)
        = Prod.fst ∘ Prod.fst from rfl,
      ← List.map_map, List.map_fst_zip _ _ hle1]
    rfl
  · show s.scores.sum
        = ((section_wise s.questions s.scores).map fun e => e.2.1).sum
    unfold section_wise
    rw [section_wise_foldl_score, List.map_snd_zip _ _ hle2]
    simp
  · show (s.questions.map fun cq => cq.2.keywords.length).sum
        = ((section_wise s.questions s.scores).map fun e => e.2.2).sum
    unfold section_wise
    rw [section_wise_foldl_poss,
      show (fun p : (String × Question) × Nat => p.1.2.keywords.length)
        = (fun cq : String × Question => cq.2.keywords.length) ∘ Prod.fst
        from rfl,
      ← List.map_map, List.map_fst_zip _ _ hle1]
    simp

/-- C4 witness: the decomposition holds on the concrete demo session at its
summary. -/
theorem C4_summary_totals_witness :
    (build_report demoSummary).totalScore
        = ((build_report demoSummary).perCategory.map fun e => e.2.1).sum
    ∧ (build_report demoSummary).perCategory.map Prod.fst
        = firstSeenCats (demoSummary.questions.map Prod.fst) :=
  ⟨(C4_summary_totals demoSummary (by decide)).2.2.2.1,
    (C4_summary_totals demoSummary (by decide)).2.2.1⟩
